import Mathlib

/-!
# Verification of storage-plus (`src/src/factory.ts`, class `StoragePlus`)

Shallow embedding of the `StoragePlus` wrapper: a namespaced, auto-expiring
layer over a raw key-value store (`localStorage` / `sessionStorage` style).

Modelling choices:
* Keys, payloads and raw stored values are character lists (`Str := List Char`);
  JS string operations (`startsWith`, `substring`, `length`, `++`) become the
  corresponding list operations.
* The stored raw text either is the `JSON.stringify` output of a well-formed
  envelope (`RawData.enc item`, which `JSON.parse` + the structural check of
  `parseStoredData` decodes back to `item`) or is text that does not decode
  to a well-formed envelope (`RawData.corrupt text`).  `RawData.length` is the
  character length of the raw text; for `enc` it is the length of the concrete
  JSON rendering `encodeItem`.
* The raw store is an ordered association list (`Store.entries`), matching the
  index-based enumeration `storage.key(i)` for `0 ≤ i < storage.length`, plus
  an optional `quota`: `setItem` throws (models `QuotaExceededError`) exactly
  when the total character size after the write would exceed the quota.  The
  other raw primitives (`getItem`, `removeItem`, `key`, `length`) never throw,
  as in a healthy browser store.
* `Date.now()` is an explicit `now : Nat` argument (milliseconds).
* `console.warn` output is modelled as an explicit list of warning strings
  returned next to the result, emitted only when `enableWarnings` is set, so
  that the warning side channel is part of the model rather than erased.
Every public operation returns `(result, finalStore, warnings)`.
-/

/-- JS strings, modelled as character lists. -/
abbrev Str := List Char

/-- The stored envelope (`StorageItem` in `types.ts`): payload plus expiry
metadata.  `expiresAt = none` models the JSON `null` / absent field. -/
structure StorageItem where
  value : Str
  expiresAt : Option Nat
  createdAt : Nat
deriving DecidableEq, Repr

/-- Decimal rendering of a number, as characters. -/
def natChars (n : Nat) : Str := (toString n).toList

/-- The exact `JSON.stringify` rendering of an envelope (field order follows
the object literal in `StoragePlus.set`: `value`, `expiresAt`, `createdAt`).
The payload `item.value` stands for its own JSON serialization. -/
def encodeItem (item : StorageItem) : Str :=
  "\x7b\"value\":".toList ++ item.value ++
    ",\"expiresAt\":".toList ++
    (match item.expiresAt with
     | none => "null".toList
     | some e => natChars e) ++
    ",\"createdAt\":".toList ++ natChars item.createdAt ++ "\x7d".toList

/-- A raw stored string: either the serialization of a well-formed envelope,
or text that does not decode to a well-formed envelope (fails `JSON.parse`,
or parses but lacks the `value`/`createdAt` fields). -/
inductive RawData where
  | enc (item : StorageItem) : RawData
  | corrupt (text : Str) : RawData
deriving DecidableEq, Repr

/-- Character length of the raw stored string. -/
def RawData.length : RawData → Nat
  | .enc item => (encodeItem item).length
  | .corrupt text => text.length

/-- First value stored under a key (keys are unique in a real browser store;
`find?` semantics match `storage.getItem`). -/
def lookupRaw : List (Str × RawData) → Str → Option RawData
  | [], _ => none
  | p :: rest, k => if p.1 = k then some p.2 else lookupRaw rest k

/-- `storage.setItem` on the entry list: overwrite in place if the key is
present, else append at the end. -/
def setItemList : List (Str × RawData) → Str → RawData → List (Str × RawData)
  | [], k, v => [(k, v)]
  | p :: rest, k, v => if p.1 = k then (k, v) :: rest else p :: setItemList rest k v

/-- `storage.removeItem` on the entry list. -/
def removeList : List (Str × RawData) → Str → List (Str × RawData)
  | [], _ => []
  | p :: rest, k => if p.1 = k then removeList rest k else p :: removeList rest k

/-- Total character size of the stored entries (keys plus raw values),
the quantity a browser quota bounds. -/
def entriesSize (l : List (Str × RawData)) : Nat :=
  (l.map (fun p => p.1.length + p.2.length)).sum

/-- The raw key-value store: ordered entries (enumerated by index) and an
optional quota on the total character size. -/
structure Store where
  entries : List (Str × RawData)
  quota : Option Nat
deriving DecidableEq, Repr

/-- `storage.getItem(k)`: the stored raw string, or `null`. -/
def Store.getItem (s : Store) (k : Str) : Option RawData :=
  lookupRaw s.entries k

/-- `storage.setItem(k, v)`: throws (`.error`) iff the write would push the
total size past the quota; otherwise stores and returns the new store. -/
def Store.setItem (s : Store) (k : Str) (v : RawData) : Except Unit Store :=
  let newEntries := setItemList s.entries k v
  match s.quota with
  | none => .ok ⟨newEntries, s.quota⟩
  | some q => if entriesSize newEntries ≤ q then .ok ⟨newEntries, s.quota⟩ else .error ()

/-- `storage.removeItem(k)` (never throws). -/
def Store.removeItem (s : Store) (k : Str) : Store :=
  ⟨removeList s.entries k, s.quota⟩

/-- `storage.length`. -/
def Store.length (s : Store) : Nat := s.entries.length

/-- `storage.key(i)`: the key at index `i`, or `null` out of range. -/
def Store.key (s : Store) (i : Nat) : Option Str :=
  (s.entries.get? i).map Prod.fst

/-- Constructor options (`StoragePlusOptions` in `types.ts`); `none` models an
absent field. -/
structure StoragePlusOptions where
  ns : Option Str
  defaultTTL : Option Nat
  enableWarnings : Option Bool
deriving DecidableEq, Repr

/-- Per-call options of `set` (`SetOptions` in `types.ts`). -/
structure SetOptions where
  ttl : Option Nat
deriving DecidableEq, Repr

/-- The private fields of a `StoragePlus` instance after the constructor ran
(minus the store handle, which is threaded explicitly). -/
structure Config where
  ns : Str
  defaultTTL : Option Nat
  enableWarnings : Bool
deriving DecidableEq, Repr

/-- Result shape of `getInfo`; `none` models an absent optional field. -/
structure ItemInfo where
  exists_ : Bool
  createdAt : Option Nat
  expiresAt : Option (Option Nat)
  size : Option Nat
deriving DecidableEq, Repr

namespace StoragePlus

/-- The constructor's field initialisation (`factory.ts` lines 73-81):
`this.namespace = options.namespace ? namespace + ":" : ""` (JS truthiness:
the empty string counts as absent), `this.defaultTTL = options.defaultTTL ||
null` (`||`, so a `defaultTTL` of `0` becomes `null`), `this.enableWarnings =
options.enableWarnings ?? true`. -/
def mkConfig (options : StoragePlusOptions) : Config :=
  ⟨(match options.ns with
    | some n => if n = [] then [] else n ++ [':']
    | none => []),
   (match options.defaultTTL with
    | some t => if t = 0 then none else some t
    | none => none),
   options.enableWarnings.getD true⟩

/-- `getKey`: full key = namespace prefix ++ user key. -/
def getKey (cfg : Config) (key : Str) : Str := cfg.ns ++ key

/-- `isExpired`: `expiresAt === null → false`, else `Date.now() > expiresAt`
(strict; equality is not expired). -/
def isExpired (now : Nat) (item : StorageItem) : Bool :=
  match item.expiresAt with
  | none => false
  | some e => decide (e < now)

/-- `parseStoredData`: `JSON.parse` plus the structural check
(`typeof parsed === "object" && "value" in parsed && "createdAt" in parsed`);
corrupt text yields `null`. -/
def parseStoredData (data : RawData) : Option StorageItem :=
  match data with
  | .enc item => some item
  | .corrupt _ => none

/-- `set(key, value, options)`: resolve `ttl = options.ttl ?? defaultTTL`,
compute `expiresAt = ttl ? now + ttl : null` (JS truthiness: a ttl of `0` is
falsy, hence no expiry), build the envelope, write it under the full key.
A thrown quota fault is caught: returns `false`, optionally warning. -/
def set (cfg : Config) (s : Store) (now : Nat) (key : Str) (value : Str)
    (options : SetOptions) : Bool × Store × List String :=
  let ttl : Option Nat :=
    match options.ttl with
    | some t => some t
    | none => cfg.defaultTTL
  let expiresAt : Option Nat :=
    match ttl with
    | some t => if t = 0 then none else some (now + t)
    | none => none
  let item : StorageItem := ⟨value, expiresAt, now⟩
  let fullKey := getKey cfg key
  match s.setItem fullKey (RawData.enc item) with
  | .ok s2 => (true, s2, [])
  | .error _ =>
    (false, s,
      if cfg.enableWarnings then ["StoragePlus: Storage quota exceeded"] else [])

/-- `get(key)`: absent → `null`; corrupt → delete the entry, `null`; expired →
delete the entry, `null`; otherwise the payload.  The raw reads in the model
never throw, so the catch branch is unreachable. -/
def get (cfg : Config) (s : Store) (now : Nat) (key : Str) :
    Option Str × Store × List String :=
  let fullKey := getKey cfg key
  match s.getItem fullKey with
  | none => (none, s, [])
  | some data =>
    match parseStoredData data with
    | none => (none, s.removeItem fullKey, [])
    | some item =>
      if isExpired now item then (none, s.removeItem fullKey, [])
      else (some item.value, s, [])

/-- `has(key)`: `this.get(key) !== null`, inheriting `get`'s side effects.
The comparison is against the *deserialized* result: a stored payload whose
serialization is the JSON text `null` deserializes to JS `null`, so `get`
hands back `null` and `has` is `false` for it even though the envelope is
well-formed and unexpired. -/
def has (cfg : Config) (s : Store) (now : Nat) (key : Str) :
    Bool × Store × List String :=
  let r := get cfg s now key
  ((match r.1 with
    | none => false
    | some v => !(v == "null".toList)), r.2.1, r.2.2)

/-- `remove(key)`: unconditional `removeItem` of the full key. -/
def remove (cfg : Config) (s : Store) (key : Str) :
    Bool × Store × List String :=
  (true, s.removeItem (getKey cfg key), [])

/-- `clear()`: first pass collects, over indices `0..length-1`, the full keys
passing `if (key && key.startsWith(namespace))` (`s.entries.map Prod.fst` is
exactly `[key(0), …, key(length-1)]`, all non-null; the truthiness check
additionally skips the empty-string key, which is falsy in JS); second pass
deletes each collected key. -/
def clear (cfg : Config) (s : Store) : Bool × Store × List String :=
  let keysToRemove := (s.entries.map Prod.fst).filter
    (fun k => !k.isEmpty && cfg.ns.isPrefixOf k)
  (true, keysToRemove.foldl (fun st k => st.removeItem k) s, [])

/-- The loop of `keys()`: `for (i = 0; i < storage.length; i++)` where the body
calls `has`, which can delete the entry under examination (the guard is
`if (fullKey && fullKey.startsWith(namespace))`: a null key — out of range —
or the falsy empty-string key is skipped) — so the loop runs
against the mutated store (`i < s.length` is re-read each iteration, and
`Store.key i` indexes the current entries).  `i` grows by one each iteration
and the store never grows, so an initial fuel of `storage.length` bounds the
iteration count; the fuel-exhausted base case is never reached. -/
def keysLoop (cfg : Config) (now : Nat) :
    Nat → Store → Nat → List Str → List Str × Store
  | 0, s, _, acc => (acc, s)
  | fuel + 1, s, i, acc =>
    if i < s.length then
      match s.key i with
      | none => keysLoop cfg now fuel s (i + 1) acc
      | some fullKey =>
        if !fullKey.isEmpty && cfg.ns.isPrefixOf fullKey then
          let key := fullKey.drop cfg.ns.length
          let r := has cfg s now key
          if r.1 then keysLoop cfg now fuel r.2.1 (i + 1) (acc ++ [key])
          else keysLoop cfg now fuel r.2.1 (i + 1) acc
        else keysLoop cfg now fuel s (i + 1) acc
    else (acc, s)

/-- `keys()`: namespaced keys, prefix stripped, re-validated via `has`. -/
def keys (cfg : Config) (s : Store) (now : Nat) :
    List Str × Store × List String :=
  let r := keysLoop cfg now s.length s 0 []
  (r.1, r.2, [])

/-- `size()`: over indices `0..length-1`, for keys passing
`if (key && key.startsWith(namespace))` (the falsy empty-string key is
skipped) add `key.length + value.length` — but only `if (value)`, so a
`null` or empty raw value contributes nothing (JS truthiness). -/
def size (cfg : Config) (s : Store) : Nat × Store × List String :=
  let total := (s.entries.map Prod.fst).foldl
    (fun acc k =>
      if !k.isEmpty && cfg.ns.isPrefixOf k then
        match s.getItem k with
        | some v => if v.length = 0 then acc else acc + k.length + v.length
        | none => acc
      else acc) 0
  (total, s, [])

/-- `cleanup()`: first pass collects, over indices `0..length-1`, the full
keys passing `if (fullKey && fullKey.startsWith(namespace))` (the falsy
empty-string key is skipped) whose raw data is non-null and non-empty
(`if (data)`), parses as an envelope, and is expired; second pass deletes
them, counting.  Corrupt entries never enter `keysToRemove`. -/
def cleanup (cfg : Config) (s : Store) (now : Nat) :
    Nat × Store × List String :=
  let keysToRemove := (s.entries.map Prod.fst).filter (fun k =>
    (!k.isEmpty && cfg.ns.isPrefixOf k) &&
      match s.getItem k with
      | some data =>
        if data.length = 0 then false
        else
          match parseStoredData data with
          | some item => isExpired now item
          | none => false
      | none => false)
  let s2 := keysToRemove.foldl (fun st k => st.removeItem k) s
  (keysToRemove.length, s2, [])

/-- `getInfo(key)`: `\x7bexists: false\x7d` when absent, corrupt, or expired;
only the expired branch deletes the entry; otherwise the metadata plus the
raw serialized length. -/
def getInfo (cfg : Config) (s : Store) (now : Nat) (key : Str) :
    ItemInfo × Store × List String :=
  let fullKey := getKey cfg key
  match s.getItem fullKey with
  | none => (⟨false, none, none, none⟩, s, [])
  | some data =>
    match parseStoredData data with
    | none => (⟨false, none, none, none⟩, s, [])
    | some item =>
      if isExpired now item then
        (⟨false, none, none, none⟩, s.removeItem fullKey, [])
      else
        (⟨true, some item.createdAt, some item.expiresAt, some data.length⟩, s, [])

end StoragePlus

/-- Well-formed raw store: no duplicate keys (browser stores guarantee this). -/
def Store.WF (s : Store) : Prop := (s.entries.map Prod.fst).Nodup

namespace StoragePlus

/-- An entry that `cleanup` collects for deletion: full key non-empty (the
JS truthiness guard) and under the namespace, parses as an envelope, and is
expired. -/
def expiredEnv (cfg : Config) (now : Nat) (p : Str × RawData) : Bool :=
  (!p.1.isEmpty && cfg.ns.isPrefixOf p.1) &&
    (match parseStoredData p.2 with
     | some item => isExpired now item
     | none => false)

end StoragePlus

/-! ## Basic lemmas about the raw store primitives -/

theorem lookupRaw_setItemList_self (l : List (Str × RawData)) (k : Str) (v : RawData) :
    lookupRaw (setItemList l k v) k = some v := by
  induction l with
  | nil => simp [setItemList, lookupRaw]
  | cons p rest ih =>
    by_cases h : p.1 = k
    · simp [setItemList, h, lookupRaw]
    · simp [setItemList, h, lookupRaw, ih]

theorem lookupRaw_removeList_self (l : List (Str × RawData)) (k : Str) :
    lookupRaw (removeList l k) k = none := by
  induction l with
  | nil => rfl
  | cons p rest ih =>
    by_cases h : p.1 = k
    · simp [removeList, h, ih]
    · simp [removeList, h, lookupRaw, ih]

theorem removeList_length_le (l : List (Str × RawData)) (k : Str) :
    (removeList l k).length ≤ l.length := by
  induction l with
  | nil => simp [removeList]
  | cons p rest ih =>
    by_cases h : p.1 = k
    · simp only [removeList, h, if_pos]
      exact Nat.le_succ_of_le ih
    · simp only [removeList, h, if_neg, not_false_iff, List.length_cons]
      omega

theorem getItem_removeItem_self (s : Store) (k : Str) :
    (s.removeItem k).getItem k = none := by
  simp [Store.removeItem, Store.getItem, lookupRaw_removeList_self]

theorem setItem_ok_entries (s : Store) (k : Str) (v : RawData) (s2 : Store)
    (h : s.setItem k v = .ok s2) :
    s2.entries = setItemList s.entries k v ∧ s2.quota = s.quota := by
  unfold Store.setItem at h
  cases hq : s.quota with
  | none =>
    simp only [hq] at h
    cases h
    exact ⟨rfl, rfl⟩
  | some q =>
    simp only [hq] at h
    by_cases hle : entriesSize (setItemList s.entries k v) ≤ q
    · simp only [hle, if_pos] at h
      cases h
      exact ⟨rfl, rfl⟩
    · simp only [hle, if_neg, not_false_iff] at h
      cases h

theorem getItem_of_setItem_ok (s : Store) (k : Str) (v : RawData) (s2 : Store)
    (h : s.setItem k v = .ok s2) : s2.getItem k = some v := by
  have he := (setItem_ok_entries s k v s2 h).1
  simp [Store.getItem, he, lookupRaw_setItemList_self]

theorem isPrefixOf_append_self (pre k : Str) : pre.isPrefixOf (pre ++ k) = true := by
  rw [List.isPrefixOf_iff_prefix]
  exact List.prefix_append pre k

theorem append_drop_of_isPrefixOf (pre k : Str) (h : pre.isPrefixOf k = true) :
    pre ++ k.drop pre.length = k := by
  rw [List.isPrefixOf_iff_prefix] at h
  obtain ⟨t, rfl⟩ := h
  rw [List.drop_left]

theorem lookupRaw_isSome_of_mem (l : List (Str × RawData)) (p : Str × RawData)
    (hp : p ∈ l) : ∃ v, lookupRaw l p.1 = some v ∧ (p.1, v) ∈ l := by
  induction l with
  | nil => cases hp
  | cons q rest ih =>
    by_cases h : q.1 = p.1
    · exact ⟨q.2, by simp [lookupRaw, h], by rw [← h]; exact List.mem_cons_self _ _⟩
    · rcases List.mem_cons.mp hp with heq | hp
      · exact absurd (congrArg Prod.fst heq).symm h
      · obtain ⟨v, hv, hm⟩ := ih hp
        exact ⟨v, by simp [lookupRaw, h, hv], List.mem_cons_of_mem _ hm⟩

theorem lookupRaw_mem_nodup (l : List (Str × RawData))
    (hnd : (l.map Prod.fst).Nodup) (p : Str × RawData) (hp : p ∈ l) :
    lookupRaw l p.1 = some p.2 := by
  induction l with
  | nil => cases hp
  | cons q rest ih =>
    rw [List.map_cons, List.nodup_cons] at hnd
    rcases List.mem_cons.mp hp with heq | hp
    · subst heq
      simp [lookupRaw]
    · have hq : ¬ q.1 = p.1 := by
        intro he
        exact hnd.1 (he ▸ List.mem_map_of_mem Prod.fst hp)
      simp only [lookupRaw, hq, if_neg, not_false_iff]
      exact ih hnd.2 hp

theorem removeList_eq_filter (l : List (Str × RawData)) (k : Str) :
    removeList l k = l.filter (fun p => decide (p.1 ≠ k)) := by
  induction l with
  | nil => rfl
  | cons p rest ih =>
    by_cases h : p.1 = k <;> simp [removeList, h, ih, List.filter_cons]

theorem foldl_removeItem (L : List Str) (s : Store) :
    L.foldl (fun st k => st.removeItem k) s
      = ⟨s.entries.filter (fun p => decide (p.1 ∉ L)), s.quota⟩ := by
  induction L generalizing s with
  | nil => cases s with | mk e q => simp
  | cons a L ih =>
    rw [List.foldl_cons, ih]
    cases s with
    | mk e q =>
      simp only [Store.removeItem, removeList_eq_filter, List.filter_filter]
      congr 1
      apply List.filter_congr
      intro p _
      by_cases h1 : p.1 = a
      · simp [h1]
      · by_cases h2 : p.1 ∈ L <;> simp [h1, h2]


namespace StoragePlus

/-- **C7 (amended).** `clear()` removes exactly the underlying entries whose
full key is non-empty and starts with the namespace prefix
(collect-then-delete, two passes over the index range) and leaves every
other entry — including other namespaces, and the entry under the empty
full key, which the JS falsy-key guard skips — unchanged; absent an
underlying fault it returns success. -/
theorem c7_clear_amended (cfg : Config) (s : Store) :
    (clear cfg s).1 = true ∧
    (clear cfg s).2.1
      = ⟨s.entries.filter (fun p => !(!p.1.isEmpty && cfg.ns.isPrefixOf p.1)),
         s.quota⟩ := by
  refine ⟨rfl, ?_⟩
  show ((s.entries.map Prod.fst).filter
      (fun k => !k.isEmpty && cfg.ns.isPrefixOf k)).foldl
      (fun st k => st.removeItem k) s = _
  rw [foldl_removeItem]
  congr 1
  apply List.filter_congr
  intro p hp
  by_cases h : (!p.1.isEmpty && cfg.ns.isPrefixOf p.1) = true
  · simp only [h, Bool.not_true]
    have : p.1 ∈ (s.entries.map Prod.fst).filter
        (fun k => !k.isEmpty && cfg.ns.isPrefixOf k) := by
      rw [List.mem_filter]
      exact ⟨List.mem_map_of_mem Prod.fst hp, h⟩
    simp [this]
  · have hb : (!p.1.isEmpty && cfg.ns.isPrefixOf p.1) = false :=
      Bool.eq_false_iff.mpr h
    have : p.1 ∉ (s.entries.map Prod.fst).filter
        (fun k => !k.isEmpty && cfg.ns.isPrefixOf k) := by
      rw [List.mem_filter]
      rintro ⟨-, hc⟩
      exact h hc
    simp [this, hb]

/-- Counterexample to C7 as stated: with the (default) empty namespace, the
entry stored under the empty full key starts with the namespace prefix, yet
`clear()` leaves it in place — the source's `if (key && …)` guard treats
the empty-string key as falsy and never collects it. -/
theorem c7_counterexample :
    (clear ⟨[], none, true⟩ ⟨[([], RawData.corrupt ['x'])], none⟩).2.1
      = ⟨[([], RawData.corrupt ['x'])], none⟩ ∧
    ([] : Str).isPrefixOf [] = true := ⟨rfl, rfl⟩


theorem encodeItem_length_pos (item : StorageItem) : 0 < (encodeItem item).length := by
  have h9 : ("\x7b\"value\":".toList).length = 9 := rfl
  simp [encodeItem, List.length_append, h9]

theorem entry_key_inj (l : List (Str × RawData)) (hnd : (l.map Prod.fst).Nodup)
    (p r : Str × RawData) (hp : p ∈ l) (hr : r ∈ l) (h : r.1 = p.1) : r = p := by
  have h1 := lookupRaw_mem_nodup l hnd p hp
  have h2 := lookupRaw_mem_nodup l hnd r hr
  rw [h, h1] at h2
  cases p
  cases r
  simp only at h
  simp only [Option.some_inj] at h2
  simp [h, h2]

/-- **C6 (amended).** `cleanup()` removes exactly the entries with a
non-empty full key under the namespace prefix that parse as well-formed
envelopes and are expired, returns the count of entries so removed, and
leaves every other entry — unexpired, corrupt, and any (even expired)
envelope under the falsy, guard-skipped empty full key — and the quota
exactly as they were. -/
theorem c6_cleanup_amended (cfg : Config) (s : Store) (now : Nat) (hwf : Store.WF s) :
    (cleanup cfg s now).1 = s.entries.countP (expiredEnv cfg now) ∧
    (cleanup cfg s now).2.1
      = ⟨s.entries.filter (fun p => !(expiredEnv cfg now p)), s.quota⟩ := by
  have hkr : ((s.entries.map Prod.fst).filter (fun k =>
      (!k.isEmpty && cfg.ns.isPrefixOf k) &&
        match s.getItem k with
        | some data =>
          if data.length = 0 then false
          else
            match parseStoredData data with
            | some item => isExpired now item
            | none => false
        | none => false))
      = (s.entries.filter (expiredEnv cfg now)).map Prod.fst := by
    rw [List.filter_map]
    congr 1
    apply List.filter_congr
    intro p hp
    have hg : s.getItem p.1 = some p.2 := lookupRaw_mem_nodup s.entries hwf p hp
    simp only [Function.comp_apply, hg, expiredEnv]
    cases hd : p.2 with
    | enc item =>
      have hlen : ¬ (RawData.enc item).length = 0 :=
        Nat.pos_iff_ne_zero.mp (encodeItem_length_pos item)
      simp [hlen, parseStoredData]
    | corrupt text =>
      by_cases hlen : (RawData.corrupt text).length = 0 <;>
        simp [hlen, parseStoredData]
  constructor
  · show ((s.entries.map Prod.fst).filter _).length = _
    rw [hkr, List.length_map, List.countP_eq_length_filter]
  · show ((s.entries.map Prod.fst).filter _).foldl (fun st k => st.removeItem k) s = _
    rw [hkr, foldl_removeItem]
    congr 1
    apply List.filter_congr
    intro p hp
    by_cases h : expiredEnv cfg now p
    · have : p.1 ∈ (s.entries.filter (expiredEnv cfg now)).map Prod.fst :=
        List.mem_map_of_mem Prod.fst (List.mem_filter.mpr ⟨hp, h⟩)
      simp [this, h]
    · have : p.1 ∉ (s.entries.filter (expiredEnv cfg now)).map Prod.fst := by
        rw [List.mem_map]
        rintro ⟨r, hrm, hr1⟩
        rw [List.mem_filter] at hrm
        have := entry_key_inj s.entries hwf p r hp hrm.1 hr1
        rw [this] at hrm
        exact h hrm.2
      simp [this, h]

theorem foldl_if_accum (c : Str → Bool) (w : Str → Nat) (L : List Str) (a : Nat) :
    L.foldl (fun acc k => if c k then acc + w k else acc) a
      = a + ((L.filter c).map w).sum := by
  induction L generalizing a with
  | nil => simp
  | cons x L ih =>
    rw [List.foldl_cons, List.filter_cons]
    by_cases h : c x
    · rw [if_pos h, ih, if_pos h, List.map_cons, List.sum_cons]
      omega
    · rw [if_neg h, ih, if_neg h]

theorem size_body_eq (cfg : Config) (s : Store) :
    (fun (acc : Nat) (k : Str) =>
      if !k.isEmpty && cfg.ns.isPrefixOf k then
        match s.getItem k with
        | some v => if v.length = 0 then acc else acc + k.length + v.length
        | none => acc
      else acc)
    = fun (acc : Nat) (k : Str) =>
      if ((!k.isEmpty && cfg.ns.isPrefixOf k) &&
          match s.getItem k with
          | some v => decide (¬ v.length = 0)
          | none => false) then
        acc + (k.length + (match s.getItem k with | some v => v.length | none => 0))
      else acc := by
  funext acc k
  by_cases h1 : (!k.isEmpty && cfg.ns.isPrefixOf k) = true
  · cases hg : s.getItem k with
    | none => simp [h1, hg]
    | some v =>
      by_cases h2 : v.length = 0
      · simp [h1, hg, h2]
      · simp [h1, hg, h2]
        exact Nat.add_assoc acc (List.length k) v.length
  · simp [h1]

/-- **C8 (amended).** `size()` returns the sum of `length(full key) +
length(raw value)` over the entries with a non-empty full key under the
namespace prefix whose raw value is also non-empty (including expired and
corrupt ones), and modifies nothing.  Entries whose raw serialized value is
the empty string are skipped entirely (JS `if (value)` truthiness), as is
the entry under the falsy empty full key (`if (key && …)`) — see the
counterexample for the claim's unrestricted sum. -/
theorem c8_size_amended (cfg : Config) (s : Store) (hwf : Store.WF s) :
    (size cfg s).1
      = ((s.entries.filter (fun p =>
            (!p.1.isEmpty && cfg.ns.isPrefixOf p.1)
              && decide (¬ p.2.length = 0))).map
          (fun p => p.1.length + p.2.length)).sum ∧
    (size cfg s).2.1 = s := by
  refine ⟨?_, rfl⟩
  show (s.entries.map Prod.fst).foldl _ 0 = _
  rw [size_body_eq, foldl_if_accum, List.filter_map, Nat.zero_add, List.map_map]
  have hfil : s.entries.filter ((fun k => (!k.isEmpty && cfg.ns.isPrefixOf k) &&
        match s.getItem k with
        | some v => decide (¬ v.length = 0)
        | none => false) ∘ Prod.fst)
      = s.entries.filter (fun p =>
          (!p.1.isEmpty && cfg.ns.isPrefixOf p.1)
            && decide (¬ p.2.length = 0)) := by
    apply List.filter_congr
    intro p hp
    have hg : s.getItem p.1 = some p.2 := lookupRaw_mem_nodup s.entries hwf p hp
    simp [Function.comp_apply, hg]
  rw [hfil]
  congr 1
  apply List.map_congr_left
  intro p hp
  rw [List.mem_filter] at hp
  have hg : s.getItem p.1 = some p.2 := lookupRaw_mem_nodup s.entries hwf p hp.1
  simp [Function.comp_apply, hg]

theorem lookupRaw_eq_some_mem (l : List (Str × RawData)) (k : Str) (v : RawData)
    (h : lookupRaw l k = some v) : (k, v) ∈ l := by
  induction l with
  | nil => cases h
  | cons p rest ih =>
    by_cases hp : p.1 = k
    · simp only [lookupRaw, hp, if_pos] at h
      cases h
      rw [← hp]
      exact List.mem_cons_self _ _
    · simp only [lookupRaw, hp, if_neg, not_false_iff] at h
      exact List.mem_cons_of_mem _ (ih h)

theorem removeList_subset (l : List (Str × RawData)) (k : Str) :
    removeList l k ⊆ l := by
  rw [removeList_eq_filter]
  exact fun a ha => (List.mem_filter.mp ha).1

theorem get_store_cases (cfg : Config) (s : Store) (now : Nat) (key : Str) :
    (get cfg s now key).2.1 = s ∨
    (get cfg s now key).2.1 = s.removeItem (getKey cfg key) := by
  simp only [get]
  cases s.getItem (getKey cfg key) with
  | none =>
    left
    rfl
  | some data =>
    cases data with
    | corrupt text =>
      right
      rfl
    | enc item =>
      by_cases he : isExpired now item
      · right
        simp [parseStoredData, he]
      · left
        simp [parseStoredData, he]

theorem get_entries_subset (cfg : Config) (s : Store) (now : Nat) (key : Str) :
    ((get cfg s now key).2.1).entries ⊆ s.entries := by
  rcases get_store_cases cfg s now key with h | h
  · rw [h]
    exact fun a ha => ha
  · rw [h]
    exact removeList_subset _ _

theorem has_true_iff (cfg : Config) (s : Store) (now : Nat) (key : Str) :
    (has cfg s now key).1 = true ↔
      ∃ item, s.getItem (getKey cfg key) = some (RawData.enc item) ∧
        isExpired now item = false ∧ ¬ item.value = "null".toList := by
  simp only [has, get]
  cases hg : s.getItem (getKey cfg key) with
  | none => simp [hg]
  | some data =>
    cases data with
    | corrupt text => simp [hg, parseStoredData]
    | enc item =>
      by_cases he : isExpired now item
      · simp [hg, parseStoredData, he]
      · simp [hg, parseStoredData, he]

end StoragePlus

namespace StoragePlus

theorem keysLoop_sound (cfg : Config) (now : Nat) (s : Store) :
    ∀ (fuel : Nat) (s' : Store) (i : Nat) (acc : List Str),
      s'.entries ⊆ s.entries →
      ∀ k ∈ (keysLoop cfg now fuel s' i acc).1,
        k ∈ acc ∨
          ∃ item, (cfg.ns ++ k, RawData.enc item) ∈ s.entries ∧
            isExpired now item = false := by
  intro fuel
  induction fuel with
  | zero =>
    intro s' i acc hsub k hk
    exact Or.inl hk
  | succ fuel ih =>
    intro s' i acc hsub k hk
    simp only [keysLoop] at hk
    split at hk
    · split at hk
      · exact ih s' (i + 1) acc hsub k hk
      · rename_i fullKey hfk
        split at hk
        · rename_i hpre
          split at hk
          · rename_i hr
            have hsub2 :
                ((has cfg s' now (fullKey.drop cfg.ns.length)).2.1).entries
                  ⊆ s.entries :=
              fun a ha => hsub (get_entries_subset cfg s' now _ ha)
            rcases ih _ (i + 1) _ hsub2 k hk with hacc | hgood
            · rcases List.mem_append.mp hacc with h1 | h2
              · exact Or.inl h1
              · have hk2 : k = fullKey.drop cfg.ns.length := by simpa using h2
                obtain ⟨item, hgi, hne, hnn⟩ := (has_true_iff cfg s' now _).mp hr
                right
                refine ⟨item, ?_, hne⟩
                have hmem := lookupRaw_eq_some_mem _ _ _ hgi
                rw [hk2]
                exact hsub hmem
            · exact Or.inr hgood
          · rename_i hr
            have hsub2 :
                ((has cfg s' now (fullKey.drop cfg.ns.length)).2.1).entries
                  ⊆ s.entries :=
              fun a ha => hsub (get_entries_subset cfg s' now _ ha)
            exact ih _ (i + 1) _ hsub2 k hk
        · exact ih s' (i + 1) acc hsub k hk
    · exact Or.inl hk

end StoragePlus

namespace StoragePlus

theorem has_of_good (cfg : Config) (s : Store) (now : Nat) (key : Str)
    (item : StorageItem)
    (hg : s.getItem (getKey cfg key) = some (RawData.enc item))
    (he : isExpired now item = false)
    (hnn : ¬ item.value = "null".toList) :
    has cfg s now key = (true, s, []) := by
  have hnn2 : ¬ item.value = ['n', 'u', 'l', 'l'] := by simpa using hnn
  simp [has, get, hg, parseStoredData, he, hnn2]

theorem keysLoop_complete (cfg : Config) (now : Nat) (s : Store)
    (hgood : ∀ p ∈ s.entries, (!p.1.isEmpty && cfg.ns.isPrefixOf p.1) = true →
      ∃ item, p.2 = RawData.enc item ∧ isExpired now item = false ∧
        ¬ item.value = "null".toList) :
    ∀ (fuel i : Nat) (acc : List Str), s.length - i ≤ fuel →
      keysLoop cfg now fuel s i acc
        = (acc ++ (((s.entries.drop i).map Prod.fst).filter
              (fun k => !k.isEmpty && cfg.ns.isPrefixOf k)).map
            (fun k => k.drop cfg.ns.length), s) := by
  intro fuel
  induction fuel with
  | zero =>
    intro i acc hle
    have hge : s.entries.length ≤ i := by
      have : s.length ≤ i := by omega
      exact this
    rw [List.drop_eq_nil_of_le hge]
    simp [keysLoop]
  | succ fuel ih =>
    intro i acc hle
    simp only [keysLoop]
    by_cases hi : i < s.length
    · rw [if_pos hi]
      have hi' : i < s.entries.length := hi
      have hkey : s.key i = some (s.entries[i]).1 := by
        simp [Store.key, List.get?_eq_getElem?, List.getElem?_eq_getElem hi']
      rw [hkey]
      dsimp only
      have hpmem : s.entries[i] ∈ s.entries := List.getElem_mem hi'
      have hdrop : s.entries.drop i = s.entries[i] :: s.entries.drop (i + 1) :=
        List.drop_eq_getElem_cons hi'
      by_cases hguard : (!(s.entries[i]).1.isEmpty
          && cfg.ns.isPrefixOf (s.entries[i]).1) = true
      · rw [if_pos hguard]
        have hpre : cfg.ns.isPrefixOf (s.entries[i]).1 = true := by
          have h2 := hguard
          simp only [Bool.and_eq_true] at h2
          exact h2.2
        obtain ⟨v, hv, hvmem⟩ := lookupRaw_isSome_of_mem s.entries (s.entries[i]) hpmem
        obtain ⟨item, hvenc, hne, hnn⟩ := hgood ((s.entries[i]).1, v) hvmem hguard
        simp only at hvenc
        have hhas : has cfg s now ((s.entries[i]).1.drop cfg.ns.length)
            = (true, s, []) := by
          apply has_of_good cfg s now _ item _ hne hnn
          show s.getItem (getKey cfg _) = _
          rw [show getKey cfg ((s.entries[i]).1.drop cfg.ns.length) = (s.entries[i]).1
            from append_drop_of_isPrefixOf _ _ hpre]
          show lookupRaw s.entries _ = _
          rw [hv, hvenc]
        rw [hhas]
        simp only [if_pos]
        rw [ih (i + 1) (acc ++ [(s.entries[i]).1.drop cfg.ns.length]) (by omega)]
        rw [hdrop, List.map_cons, List.filter_cons, if_pos hguard, List.map_cons]
        rw [List.append_assoc, List.singleton_append]
      · rw [if_neg hguard]
        rw [ih (i + 1) acc (by omega)]
        rw [hdrop, List.map_cons, List.filter_cons, if_neg hguard]
    · rw [if_neg hi]
      have hge : s.entries.length ≤ i := Nat.le_of_not_lt hi
      rw [List.drop_eq_nil_of_le hge]
      simp

end StoragePlus

namespace StoragePlus

theorem set_result_of_ok (cfg : Config) (s : Store) (now : Nat) (k v : Str)
    (o : SetOptions)
    (hset : (set cfg s now k v o).1 = true) :
    s.setItem (getKey cfg k)
        (RawData.enc ⟨v,
          (match (match o.ttl with | some t => some t | none => cfg.defaultTTL) with
           | some t => if t = 0 then none else some (now + t)
           | none => none), now⟩)
      = .ok (set cfg s now k v o).2.1 := by
  unfold set at hset ⊢
  cases hm : s.setItem (getKey cfg k)
      (RawData.enc ⟨v,
        (match (match o.ttl with | some t => some t | none => cfg.defaultTTL) with
         | some t => if t = 0 then none else some (now + t)
         | none => none), now⟩) with
  | ok s2 => simp [hm]
  | error e => simp [hm] at hset

/-- **C1.** After `set(k, v, ttl: t)` with `t > 0` succeeds, an immediate
`get(k)` returns `v`; once the current time strictly exceeds the stored
`expiresAt = now + t`, `get(k)` returns no value and the entry is removed
from the underlying store; and an envelope is expired exactly when
`expiresAt` is present and the current time strictly exceeds it. -/
theorem c1_ttl_expiry (cfg : Config) (s : Store) (now later : Nat)
    (k v : Str) (t : Nat) (ht : 0 < t)
    (hset : (set cfg s now k v ⟨some t⟩).1 = true) :
    (get cfg (set cfg s now k v ⟨some t⟩).2.1 now k).1 = some v ∧
    (now + t < later →
      (get cfg (set cfg s now k v ⟨some t⟩).2.1 later k).1 = none ∧
      ((get cfg (set cfg s now k v ⟨some t⟩).2.1 later k).2.1).getItem
          (getKey cfg k) = none) ∧
    (∀ (tcur : Nat) (item : StorageItem),
      isExpired tcur item = true ↔ ∃ e, item.expiresAt = some e ∧ e < tcur) := by
  have hok := set_result_of_ok cfg s now k v ⟨some t⟩ hset
  have ht0 : ¬ t = 0 := by omega
  simp only [ht0, if_neg, not_false_iff] at hok
  have hget : ((set cfg s now k v ⟨some t⟩).2.1).getItem (getKey cfg k)
      = some (RawData.enc ⟨v, some (now + t), now⟩) :=
    getItem_of_setItem_ok _ _ _ _ hok
  refine ⟨?_, ?_, ?_⟩
  · simp [get, hget, parseStoredData, isExpired]
  · intro hlater
    constructor
    · simp [get, hget, parseStoredData, isExpired, hlater]
    · simp [get, hget, parseStoredData, isExpired, hlater, getItem_removeItem_self]
  · intro tcur item
    unfold isExpired
    cases item.expiresAt with
    | none => simp
    | some e => simp

/-- Witness for C1 at a concrete input. -/
theorem c1_ttl_expiry_witness :
    0 < 1 ∧
    (set (mkConfig ⟨none, none, none⟩) ⟨[], none⟩ 0 ['k'] ['v'] ⟨some 1⟩).1 = true ∧
    (get (mkConfig ⟨none, none, none⟩)
        (set (mkConfig ⟨none, none, none⟩) ⟨[], none⟩ 0 ['k'] ['v'] ⟨some 1⟩).2.1
        0 ['k']).1 = some ['v'] ∧
    (get (mkConfig ⟨none, none, none⟩)
        (set (mkConfig ⟨none, none, none⟩) ⟨[], none⟩ 0 ['k'] ['v'] ⟨some 1⟩).2.1
        2 ['k']).1 = none :=
  ⟨by decide, by decide,
    (c1_ttl_expiry (mkConfig ⟨none, none, none⟩) ⟨[], none⟩ 0 2 ['k'] ['v'] 1
      (by decide) (by decide)).1,
    ((c1_ttl_expiry (mkConfig ⟨none, none, none⟩) ⟨[], none⟩ 0 2 ['k'] ['v'] 1
      (by decide) (by decide)).2.1 (by decide)).1⟩

/-- **C2.** With no per-call ttl and no configured default TTL, `set(k, v)`
followed by `get(k)` (at any later time) returns exactly `v`; the envelope
serialization round-trips the payload. -/
theorem c2_no_ttl_roundtrip (cfg : Config) (s : Store) (now now2 : Nat)
    (k v : Str) (hd : cfg.defaultTTL = none)
    (hset : (set cfg s now k v ⟨none⟩).1 = true) :
    (get cfg (set cfg s now k v ⟨none⟩).2.1 now2 k).1 = some v ∧
    (∀ item : StorageItem, parseStoredData (RawData.enc item) = some item) := by
  have hok := set_result_of_ok cfg s now k v ⟨none⟩ hset
  simp only [hd] at hok
  have hget : ((set cfg s now k v ⟨none⟩).2.1).getItem (getKey cfg k)
      = some (RawData.enc ⟨v, none, now⟩) :=
    getItem_of_setItem_ok _ _ _ _ hok
  exact ⟨by simp [get, hget, parseStoredData, isExpired], fun _ => rfl⟩

/-- Witness for C2 at a concrete input. -/
theorem c2_no_ttl_roundtrip_witness :
    (mkConfig ⟨none, none, none⟩).defaultTTL = none ∧
    (set (mkConfig ⟨none, none, none⟩) ⟨[], none⟩ 3 ['k'] ['v'] ⟨none⟩).1 = true ∧
    (get (mkConfig ⟨none, none, none⟩)
        (set (mkConfig ⟨none, none, none⟩) ⟨[], none⟩ 3 ['k'] ['v'] ⟨none⟩).2.1
        99 ['k']).1 = some ['v'] :=
  ⟨by decide, by decide,
    (c2_no_ttl_roundtrip (mkConfig ⟨none, none, none⟩) ⟨[], none⟩ 3 99 ['k'] ['v']
      (by decide) (by decide)).1⟩

end StoragePlus

namespace StoragePlus

/-- **C3 (amended).** In general every key returned by `keys()` comes from an
entry of the starting store that is namespaced, well-formed and unexpired
(soundness); and when every entry with a non-empty namespaced full key is
well-formed, unexpired, and has a payload other than JSON `null`, `keys()`
returns exactly the prefix-stripped keys of the entries passing the
`if (fullKey && fullKey.startsWith(namespace))` guard, in enumeration
order, and leaves the store unchanged.  (The unconditional "all entries"
claim fails: lazy deletion during the index-based loop shifts indices and
skips entries — see the counterexample; the falsy empty full key and a
`null`-deserializing payload are also excluded by the source.) -/
theorem c3_keys_amended (cfg : Config) (s : Store) (now : Nat)
    (hgood : ∀ p ∈ s.entries, (!p.1.isEmpty && cfg.ns.isPrefixOf p.1) = true →
      ∃ item, p.2 = RawData.enc item ∧ isExpired now item = false ∧
        ¬ item.value = "null".toList) :
    (keys cfg s now).1
        = ((s.entries.map Prod.fst).filter
              (fun k => !k.isEmpty && cfg.ns.isPrefixOf k)).map
            (fun k => k.drop cfg.ns.length) ∧
    (keys cfg s now).2.1 = s ∧
    (∀ s0 : Store, ∀ k ∈ (keys cfg s0 now).1,
      ∃ item, (cfg.ns ++ k, RawData.enc item) ∈ s0.entries ∧
        isExpired now item = false) := by
  have hrun := keysLoop_complete cfg now s hgood s.length 0 [] (by omega)
  refine ⟨?_, ?_, ?_⟩
  · show (keysLoop cfg now s.length s 0 []).1 = _
    rw [hrun]
    simp
  · show (keysLoop cfg now s.length s 0 []).2 = s
    rw [hrun]
  · intro s0 k hk
    have := keysLoop_sound cfg now s0 s0.length s0 0 []
      (fun a ha => ha) k hk
    rcases this with h | h
    · cases h
    · exact h

/-- Counterexample to C3 as stated: with an empty namespace, a store holding
an expired entry `a` at index 0 and a well-formed unexpired entry `b` at
index 1, `keys()` deletes `a` mid-loop, the index shift skips `b`, and the
result is empty even though `b` is a namespaced, well-formed, unexpired
entry whose key the claim requires in the result. -/
theorem c3_counterexample :
    (keys ⟨[], none, true⟩
        ⟨[(['a'], RawData.enc ⟨['v'], some 0, 0⟩),
          (['b'], RawData.enc ⟨['w'], none, 0⟩)], none⟩ 1).1 = [] ∧
    ([] : Str).isPrefixOf ['b'] = true ∧
    parseStoredData (RawData.enc ⟨['w'], none, 0⟩) = some ⟨['w'], none, 0⟩ ∧
    isExpired 1 ⟨['w'], none, 0⟩ = false := by
  refine ⟨by decide, by decide, rfl, by decide⟩

/-- Witness for C3 (amended) at a concrete input. -/
theorem c3_keys_amended_witness :
    (∀ p ∈ ([(['n', ':', 'x'], RawData.enc ⟨['u'], none, 0⟩),
             (['z'], RawData.corrupt ['j'])] : List (Str × RawData)),
      (!p.1.isEmpty && (['n', ':'] : Str).isPrefixOf p.1) = true →
        ∃ item, p.2 = RawData.enc item ∧ isExpired 5 item = false ∧
          ¬ item.value = "null".toList) ∧
    (keys ⟨['n', ':'], none, true⟩
        ⟨[(['n', ':', 'x'], RawData.enc ⟨['u'], none, 0⟩),
          (['z'], RawData.corrupt ['j'])], none⟩ 5).1 = [['x']] := by
  have hgood : ∀ p ∈ ([(['n', ':', 'x'], RawData.enc ⟨['u'], none, 0⟩),
             (['z'], RawData.corrupt ['j'])] : List (Str × RawData)),
      (!p.1.isEmpty && (['n', ':'] : Str).isPrefixOf p.1) = true →
        ∃ item, p.2 = RawData.enc item ∧ isExpired 5 item = false ∧
          ¬ item.value = "null".toList := by
    intro p hp hpre
    rcases List.mem_cons.mp hp with heq | hp
    · subst heq
      exact ⟨⟨['u'], none, 0⟩, rfl, rfl, by decide⟩
    · rcases List.mem_cons.mp hp with heq | hp
      · subst heq
        exact absurd hpre (by decide)
      · cases hp
  refine ⟨hgood, ?_⟩
  rw [(c3_keys_amended ⟨['n', ':'], none, true⟩
      ⟨[(['n', ':', 'x'], RawData.enc ⟨['u'], none, 0⟩),
        (['z'], RawData.corrupt ['j'])], none⟩ 5 hgood).1]
  decide

end StoragePlus

namespace StoragePlus

/-- **C4 (amended).** A stored value that does not decode into a well-formed
envelope is treated as absent by `get`, `has`, `keys` and `getInfo`; `get`,
`has` and `keys` delete the offending entry on first observation (for
`keys` provided the full key is non-empty — the JS falsy-key guard skips
the empty full key entirely), but `getInfo` does *not* delete it — it
returns no-info and leaves the store unchanged (only its expired branch
deletes). -/
theorem c4_corrupt_handling (cfg : Config) (s : Store) (now : Nat) (k : Str)
    (d : RawData) (hget : s.getItem (getKey cfg k) = some d)
    (hcor : parseStoredData d = none) :
    (get cfg s now k).1 = none ∧
    (get cfg s now k).2.1 = s.removeItem (getKey cfg k) ∧
    ((get cfg s now k).2.1).getItem (getKey cfg k) = none ∧
    (has cfg s now k).1 = false ∧
    (has cfg s now k).2.1 = s.removeItem (getKey cfg k) ∧
    (getInfo cfg s now k).1 = ⟨false, none, none, none⟩ ∧
    (getInfo cfg s now k).2.1 = s ∧
    (getKey cfg k ≠ [] → s.entries = [(getKey cfg k, d)] →
      (keys cfg s now).1 = [] ∧
      ((keys cfg s now).2.1).entries = []) := by
  refine ⟨?_, ?_, ?_, ?_, ?_, ?_, ?_, ?_⟩
  · simp [get, hget, hcor]
  · simp [get, hget, hcor]
  · simp [get, hget, hcor, getItem_removeItem_self]
  · simp [has, get, hget, hcor]
  · simp [has, get, hget, hcor]
  · simp [getInfo, hget, hcor]
  · simp [getInfo, hget, hcor]
  · intro hne hent
    obtain ⟨entries, quota⟩ := s
    simp only at hent
    subst hent
    have hie : (getKey cfg k).isEmpty = false :=
      Bool.eq_false_iff.mpr (fun hc => hne (List.isEmpty_iff.mp hc))
    have hlen : Store.length ⟨[(getKey cfg k, d)], quota⟩ = 1 := rfl
    simp only [keys, hlen]
    simp only [keysLoop, Store.length, Store.key, List.length_cons,
      List.length_nil, Nat.zero_lt_one, if_pos, List.get?]
    simp only [getKey] at hget hcor hie ⊢
    simp [isPrefixOf_append_self, List.drop_left, has, get, getKey,
      Store.getItem, lookupRaw, hcor, Store.removeItem, removeList, keysLoop,
      Store.length, hie]
  
/-- Counterexample to C4 as stated: `getInfo` on a corrupt entry returns
no-info but leaves the entry in the underlying store (the corrupt branch
has no `removeItem`), contradicting the claim that each of the four readers
deletes a corrupt entry on first observation. -/
theorem c4_counterexample :
    (getInfo ⟨[], none, true⟩ ⟨[(['a'], RawData.corrupt ['x'])], none⟩ 0 ['a']).1
        = ⟨false, none, none, none⟩ ∧
    (getInfo ⟨[], none, true⟩
        ⟨[(['a'], RawData.corrupt ['x'])], none⟩ 0 ['a']).2.1
        = ⟨[(['a'], RawData.corrupt ['x'])], none⟩ := by
  exact ⟨rfl, rfl⟩

/-- Witness for C4 (amended) at a concrete input. -/
theorem c4_corrupt_handling_witness :
    (⟨[(['a'], RawData.corrupt ['x'])], none⟩ : Store).getItem
        (getKey ⟨[], none, true⟩ ['a']) = some (RawData.corrupt ['x']) ∧
    parseStoredData (RawData.corrupt ['x']) = none ∧
    (get ⟨[], none, true⟩ ⟨[(['a'], RawData.corrupt ['x'])], none⟩ 0 ['a']).1
        = none ∧
    (getInfo ⟨[], none, true⟩
        ⟨[(['a'], RawData.corrupt ['x'])], none⟩ 0 ['a']).2.1
        = ⟨[(['a'], RawData.corrupt ['x'])], none⟩ := by
  have h := c4_corrupt_handling ⟨[], none, true⟩
    ⟨[(['a'], RawData.corrupt ['x'])], none⟩ 0 ['a'] (RawData.corrupt ['x'])
    (by decide) rfl
  exact ⟨by decide, rfl, h.1, h.2.2.2.2.2.2.1⟩

/-- **C5.** If the underlying store holds, under the full key for `k`, raw
text that does not parse as a well-formed envelope, then `get(k)` returns
no value and deletes that entry from the underlying store. -/
theorem c5_get_corrupt (cfg : Config) (s : Store) (now : Nat) (k : Str)
    (d : RawData) (hget : s.getItem (getKey cfg k) = some d)
    (hcor : parseStoredData d = none) :
    (get cfg s now k).1 = none ∧
    (get cfg s now k).2.1 = s.removeItem (getKey cfg k) ∧
    ((get cfg s now k).2.1).getItem (getKey cfg k) = none := by
  refine ⟨?_, ?_, ?_⟩ <;> simp [get, hget, hcor, getItem_removeItem_self]

/-- Witness for C5 at a concrete input. -/
theorem c5_get_corrupt_witness :
    (⟨[(['q'], RawData.corrupt ['z'])], none⟩ : Store).getItem
        (getKey ⟨[], none, true⟩ ['q']) = some (RawData.corrupt ['z']) ∧
    parseStoredData (RawData.corrupt ['z']) = none ∧
    (get ⟨[], none, true⟩ ⟨[(['q'], RawData.corrupt ['z'])], none⟩ 7 ['q']).1
        = none ∧
    ((get ⟨[], none, true⟩
        ⟨[(['q'], RawData.corrupt ['z'])], none⟩ 7 ['q']).2.1).getItem
        (getKey ⟨[], none, true⟩ ['q']) = none := by
  have h := c5_get_corrupt ⟨[], none, true⟩
    ⟨[(['q'], RawData.corrupt ['z'])], none⟩ 7 ['q'] (RawData.corrupt ['z'])
    (by decide) rfl
  exact ⟨by decide, rfl, h.1, h.2.2⟩

end StoragePlus

namespace StoragePlus

theorem keysLoop_warnings_congr (n : Str) (d : Option Nat) (w1 w2 : Bool)
    (now : Nat) :
    ∀ (fuel : Nat) (s : Store) (i : Nat) (acc : List Str),
      keysLoop ⟨n, d, w1⟩ now fuel s i acc = keysLoop ⟨n, d, w2⟩ now fuel s i acc := by
  intro fuel
  induction fuel with
  | zero =>
    intro s i acc
    rfl
  | succ fuel ih =>
    intro s i acc
    rw [keysLoop, keysLoop]
    by_cases hi : i < s.length
    · rw [if_pos hi, if_pos hi]
      cases s.key i with
      | none => exact ih s (i + 1) acc
      | some fullKey =>
        dsimp only
        by_cases hpre : (!fullKey.isEmpty && n.isPrefixOf fullKey) = true
        · rw [if_pos hpre, if_pos hpre]
          have hh : has ⟨n, d, w1⟩ s now (fullKey.drop n.length)
              = has ⟨n, d, w2⟩ s now (fullKey.drop n.length) := rfl
          rw [hh]
          by_cases hr : (has ⟨n, d, w2⟩ s now (fullKey.drop n.length)).1
          · rw [if_pos hr, if_pos hr]
            exact ih _ (i + 1) _
          · rw [if_neg hr, if_neg hr]
            exact ih _ (i + 1) _
        · rw [if_neg hpre, if_neg hpre]
          exact ih s (i + 1) acc
    · rw [if_neg hi, if_neg hi]

/-- **C9.** For every operation, starting store and argument, two runs that
differ only in the `enableWarnings` flag produce the same return value and
the same final store: the flag only gates the diagnostic warning channel. -/
theorem c9_warnings_pure_side_channel (n : Str) (d : Option Nat)
    (w1 w2 : Bool) (s : Store) (now : Nat) (k v : Str) (o : SetOptions) :
    ((set ⟨n, d, w1⟩ s now k v o).1 = (set ⟨n, d, w2⟩ s now k v o).1 ∧
      (set ⟨n, d, w1⟩ s now k v o).2.1 = (set ⟨n, d, w2⟩ s now k v o).2.1) ∧
    get ⟨n, d, w1⟩ s now k = get ⟨n, d, w2⟩ s now k ∧
    has ⟨n, d, w1⟩ s now k = has ⟨n, d, w2⟩ s now k ∧
    remove ⟨n, d, w1⟩ s k = remove ⟨n, d, w2⟩ s k ∧
    clear ⟨n, d, w1⟩ s = clear ⟨n, d, w2⟩ s ∧
    keys ⟨n, d, w1⟩ s now = keys ⟨n, d, w2⟩ s now ∧
    size ⟨n, d, w1⟩ s = size ⟨n, d, w2⟩ s ∧
    cleanup ⟨n, d, w1⟩ s now = cleanup ⟨n, d, w2⟩ s now ∧
    getInfo ⟨n, d, w1⟩ s now k = getInfo ⟨n, d, w2⟩ s now k := by
  refine ⟨?_, rfl, rfl, rfl, rfl, ?_, rfl, rfl, rfl⟩
  · simp only [set, getKey]
    dsimp only
    cases hm : Store.setItem s (n ++ k)
        (RawData.enc ⟨v,
          (match (match o.ttl with | some t => some t | none => d) with
           | some t => if t = 0 then none else some (now + t)
           | none => none), now⟩) with
    | ok s2 => simp [hm]
    | error e => simp [hm]
  · simp only [keys]
    rw [keysLoop_warnings_congr n d w1 w2 now s.length s 0 []]

/-- **C10.** A ttl of zero yields a non-expiring entry: `set(k, v, ttl: 0)`
stores an envelope with no `expiresAt` (JS: `0` is falsy in `ttl ? … : null`),
a configured `defaultTTL` of `0` is normalised to "no default TTL" by the
constructor (`options.defaultTTL || null`), and an envelope without
`expiresAt` is never reported expired at any later time. -/
theorem c10_zero_ttl_never_expires (n : Option Str) (w : Option Bool)
    (cfg : Config) (s : Store) (now : Nat) (k v : Str)
    (hset : (set cfg s now k v ⟨some 0⟩).1 = true) :
    mkConfig ⟨n, some 0, w⟩ = mkConfig ⟨n, none, w⟩ ∧
    (mkConfig ⟨n, some 0, w⟩).defaultTTL = none ∧
    ((set cfg s now k v ⟨some 0⟩).2.1).getItem (getKey cfg k)
        = some (RawData.enc ⟨v, none, now⟩) ∧
    (∀ later, (get cfg (set cfg s now k v ⟨some 0⟩).2.1 later k).1 = some v) ∧
    (∀ later (item : StorageItem), item.expiresAt = none →
        isExpired later item = false) := by
  have hok := set_result_of_ok cfg s now k v ⟨some 0⟩ hset
  have hget : ((set cfg s now k v ⟨some 0⟩).2.1).getItem (getKey cfg k)
      = some (RawData.enc ⟨v, none, now⟩) :=
    getItem_of_setItem_ok _ _ _ _ hok
  refine ⟨rfl, rfl, hget, ?_, ?_⟩
  · intro later
    simp [get, hget, parseStoredData, isExpired]
  · intro later item h
    simp [isExpired, h]

/-- Witness for C10 at a concrete input. -/
theorem c10_zero_ttl_never_expires_witness :
    (set ⟨[], none, true⟩ ⟨[], none⟩ 4 ['k'] ['v'] ⟨some 0⟩).1 = true ∧
    ((set ⟨[], none, true⟩ ⟨[], none⟩ 4 ['k'] ['v'] ⟨some 0⟩).2.1).getItem
        (getKey ⟨[], none, true⟩ ['k']) = some (RawData.enc ⟨['v'], none, 4⟩) ∧
    (get ⟨[], none, true⟩
        (set ⟨[], none, true⟩ ⟨[], none⟩ 4 ['k'] ['v'] ⟨some 0⟩).2.1
        1000000 ['k']).1 = some ['v'] := by
  have h := c10_zero_ttl_never_expires none none ⟨[], none, true⟩ ⟨[], none⟩ 4
    ['k'] ['v'] (by decide)
  exact ⟨by decide, h.2.2.1, h.2.2.2.1 1000000⟩

end StoragePlus

namespace StoragePlus

/-- Counterexample to C6 as stated: with the (default) empty namespace, an
expired, well-formed envelope stored under the empty full key is an entry
under the namespace prefix that parses and is expired, yet `cleanup()`
returns a count of `0` and leaves the store unchanged — the source's
`if (fullKey && …)` guard treats the empty-string key as falsy and never
collects it. -/
theorem c6_counterexample :
    (cleanup ⟨[], none, true⟩
        ⟨[([], RawData.enc ⟨['v'], some 0, 0⟩)], none⟩ 1).1 = 0 ∧
    (cleanup ⟨[], none, true⟩
        ⟨[([], RawData.enc ⟨['v'], some 0, 0⟩)], none⟩ 1).2.1
      = ⟨[([], RawData.enc ⟨['v'], some 0, 0⟩)], none⟩ ∧
    ([] : Str).isPrefixOf [] = true ∧
    parseStoredData (RawData.enc ⟨['v'], some 0, 0⟩) = some ⟨['v'], some 0, 0⟩ ∧
    isExpired 1 ⟨['v'], some 0, 0⟩ = true := by
  exact ⟨rfl, rfl, rfl, rfl, rfl⟩

/-- Witness for C6 (amended) at a concrete input: one expired envelope is
removed and counted, a corrupt entry and the quota are left exactly as they
were. -/
theorem c6_cleanup_amended_witness :
    Store.WF ⟨[(['a'], RawData.enc ⟨['v'], some 0, 0⟩),
               (['b'], RawData.corrupt ['x'])], none⟩ ∧
    (cleanup ⟨[], none, true⟩
        ⟨[(['a'], RawData.enc ⟨['v'], some 0, 0⟩),
          (['b'], RawData.corrupt ['x'])], none⟩ 1).1
      = ([(['a'], RawData.enc ⟨['v'], some 0, 0⟩),
          (['b'], RawData.corrupt ['x'])] : List (Str × RawData)).countP
          (expiredEnv ⟨[], none, true⟩ 1) ∧
    (cleanup ⟨[], none, true⟩
        ⟨[(['a'], RawData.enc ⟨['v'], some 0, 0⟩),
          (['b'], RawData.corrupt ['x'])], none⟩ 1).2.1
      = ⟨([(['a'], RawData.enc ⟨['v'], some 0, 0⟩),
           (['b'], RawData.corrupt ['x'])] : List (Str × RawData)).filter
            (fun p => !(expiredEnv ⟨[], none, true⟩ 1 p)), none⟩ := by
  have h := c6_cleanup_amended ⟨[], none, true⟩
    ⟨[(['a'], RawData.enc ⟨['v'], some 0, 0⟩),
      (['b'], RawData.corrupt ['x'])], none⟩ 1
    (by unfold Store.WF; decide)
  exact ⟨by unfold Store.WF; decide, h.1, h.2⟩

/-- Counterexample to C8 as stated: an externally injected entry whose raw
value is the empty string (a corrupt entry the claim explicitly includes)
is skipped entirely by `size()` — JS `if (value)` treats the empty string
as falsy — so `size()` returns `0` while the claimed sum over all
namespaced entries is `1` (the key length). -/
theorem c8_counterexample :
    (size ⟨[], none, true⟩ ⟨[(['a'], RawData.corrupt [])], none⟩).1 = 0 ∧
    ((([(['a'], RawData.corrupt [])] : List (Str × RawData)).filter
        (fun p => ([] : Str).isPrefixOf p.1)).map
      (fun p => p.1.length + p.2.length)).sum = 1 := by
  exact ⟨rfl, rfl⟩

/-- Witness for C8 (amended) at a concrete input: a normal entry counts key
plus raw length, the empty-valued entry contributes nothing, non-namespaced
entries are excluded, and the store is unchanged. -/
theorem c8_size_amended_witness :
    Store.WF ⟨[(['n', ':', 'a'], RawData.corrupt ['x', 'y']),
               (['n', ':', 'b'], RawData.corrupt []),
               (['z'], RawData.corrupt ['q'])], none⟩ ∧
    (size ⟨['n', ':'], none, true⟩
        ⟨[(['n', ':', 'a'], RawData.corrupt ['x', 'y']),
          (['n', ':', 'b'], RawData.corrupt []),
          (['z'], RawData.corrupt ['q'])], none⟩).1
      = ((([(['n', ':', 'a'], RawData.corrupt ['x', 'y']),
            (['n', ':', 'b'], RawData.corrupt []),
            (['z'], RawData.corrupt ['q'])] : List (Str × RawData)).filter
            (fun p => (!p.1.isEmpty && (['n', ':'] : Str).isPrefixOf p.1)
              && decide (¬ p.2.length = 0))).map
          (fun p => p.1.length + p.2.length)).sum ∧
    (size ⟨['n', ':'], none, true⟩
        ⟨[(['n', ':', 'a'], RawData.corrupt ['x', 'y']),
          (['n', ':', 'b'], RawData.corrupt []),
          (['z'], RawData.corrupt ['q'])], none⟩).2.1
      = ⟨[(['n', ':', 'a'], RawData.corrupt ['x', 'y']),
          (['n', ':', 'b'], RawData.corrupt []),
          (['z'], RawData.corrupt ['q'])], none⟩ := by
  have h := c8_size_amended ⟨['n', ':'], none, true⟩
    ⟨[(['n', ':', 'a'], RawData.corrupt ['x', 'y']),
      (['n', ':', 'b'], RawData.corrupt []),
      (['z'], RawData.corrupt ['q'])], none⟩
    (by unfold Store.WF; decide)
  exact ⟨by unfold Store.WF; decide, h.1, h.2⟩

end StoragePlus
